import Mathlib

/-!
# Verification of the AVARA-XSNA vegetation field manager and render-pipeline passes

This file gives a shallow embedding of the state-bearing parts of the
repository and proves the specified properties about them.

* `src/js/vegetation-manager.js` — the windowed procedural field manager
  (initial population, spawn-with-retry, per-frame advance + recycle).
* `src/js/custom-dof.js` — the depth-driven blur pass (depth linearization,
  layer exclusion with visibility save/restore, `setSize`).
* `src/js/chromatic-aberration.js` together with the resize handler in
  `src/js/app.js` — resolution-uniform bookkeeping across `resize`.

Positions and random draws are modelled exactly over `ℚ` (the JavaScript
code computes with IEEE doubles; all inputs used in concrete evaluations
below are exactly representable, and the universally quantified theorems
hold for every rational draw stream).  The depth-linearization shader math
is modelled over `ℝ` because it involves `pow(·, 0.5)`.
-/

namespace Avara

/-! ## Vegetation manager: constants (vegetation-manager.js, lines 6–9) -/

def GRASS_SPREAD : ℚ := 10
def TREE_SPREAD : ℚ := 20
def MIN_DISTANCE : ℚ := 5
def REMOVAL_Z : ℚ := 20
def GENERATION_Z : ℚ := -70
def MIN_PATCH_SIZE : ℚ := 10
def MAX_PATCH_SIZE : ℚ := 15
def TREE_CLEARANCE_FROM_CENTER : ℚ := 5

/-- A live instance (grass patch or tree).  Only the world x/z coordinates
are modelled: the per-frame logic and the spec's separation/window claims
read nothing else (patch size and blade count feed only into the generated
geometry, and `y` is constant per kind). -/
structure Pos where
  x : ℚ
  z : ℚ
deriving DecidableEq, Repr

/-- Squared center-to-center distance in the x-z plane, as computed by the
`Math.pow(dx, 2) + Math.pow(dz, 2)` checks in the source. -/
def sqDist (p q : Pos) : ℚ := (p.x - q.x) ^ 2 + (p.z - q.z) ^ 2

/-- The test `existing.some(obj => (obj.x - x)² + (obj.z - z)² < MIN_DISTANCE²)` —
the minimum-separation rejection test used at every guarded spawn. -/
def tooCloseTo (existing : List Pos) (x z : ℚ) : Bool :=
  existing.any fun p =>
    decide ((p.x - x) ^ 2 + (p.z - z) ^ 2 < MIN_DISTANCE * MIN_DISTANCE)

/-- The source's center-biased draw
`centerBiasedRandom = () => Math.pow(Math.random(), 1.5) * 2 - 1`
as a real function of the uniform draw. -/
noncomputable def centerBiasedRandom (r : ℝ) : ℝ := r ^ ((3 : ℝ) / 2) * 2 - 1

/-- Random draws.  `g n` is the `n`-th random value consumed by the model.
At places where the source calls `Math.random()` the draw stands for the
uniform value (which lies in `[0,1)`); at places where it calls
`centerBiasedRandom()` the draw stands for that call's result (which lies
in `[-1,1)` — see `centerBiasedRandom_mem`).  `RngWF` assumes only the
common superset `[-1,1)`, so every theorem below covers both.  Draws made
inside geometry construction (blade placement, tree-variant choice) touch
no modelled state and are not counted. -/
def RngWF (g : ℕ → ℚ) : Prop := ∀ n, -1 ≤ g n ∧ g n < 1

/-! ## `createNewVegetation` (vegetation-manager.js, lines 156–182) -/

/-- Candidate cross-axis coordinate of one respawn attempt whose two draws
start at stream index `k`:
`x = (type === 'grass' ? centerBiasedRandom() : (Math.random() * 2 - 1)) * spread`. -/
def candidateX (g : ℕ → ℚ) (k : ℕ) (isGrass : Bool) : ℚ :=
  (if isGrass then g k else 2 * g k - 1) * (if isGrass then GRASS_SPREAD else TREE_SPREAD)

/-- Candidate travel-axis coordinate of the same attempt:
`z = GENERATION_Z - (Math.random() * 50)`. -/
def candidateZ (g : ℕ → ℚ) (k : ℕ) : ℚ := GENERATION_Z - g (k + 1) * 50

/-- The acceptance test of one respawn attempt:
`!tooClose && !tooCloseToCamera`, where `tooCloseToCamera` is
`type === 'tree' && Math.abs(x) < TREE_CLEARANCE_FROM_CENTER`. -/
def acceptCandidate (g : ℕ → ℚ) (k : ℕ) (isGrass : Bool) (existing : List Pos) : Bool :=
  !tooCloseTo existing (candidateX g k isGrass) (candidateZ g k) &&
    !(!isGrass && decide (|candidateX g k isGrass| < TREE_CLEARANCE_FROM_CENTER))

/-- The retry loop of `createNewVegetation`: `attempts` draws remain; each
attempt consumes two draws.  Returns the accepted position (`some`) or
`none` after exhausting the attempts, together with the next stream index. -/
def createNewAttempts (g : ℕ → ℚ) (isGrass : Bool) (existing : List Pos) :
    ℕ → ℕ → Option Pos × ℕ
  | 0, k => (none, k)
  | attempts + 1, k =>
    if acceptCandidate g k isGrass existing then
      (some ⟨candidateX g k isGrass, candidateZ g k⟩, k + 2)
    else
      createNewAttempts g isGrass existing attempts (k + 2)

/-- Function `createNewVegetation(scene, type)`: up to 10 attempts
(`for (let attempts = 0; attempts < 10; attempts++)`).  The caller appends
the returned position to the matching live list. -/
def createNewVegetation (g : ℕ → ℚ) (isGrass : Bool) (existing : List Pos) (k : ℕ) :
    Option Pos × ℕ :=
  createNewAttempts g isGrass existing 10 k

/-! ## `createInitialVegetation` (vegetation-manager.js, lines 125–154) -/

/-- The row density `Math.max(2, Math.floor(6 * (1 - Math.abs(z) / 200)))` — patches per
grass row. -/
def patchesInRow (z : ℚ) : ℕ := max 2 (Int.toNat ⌊6 * (1 - |z| / 200)⌋)

/-- Row coordinates of the loop `for (let z = -20; z > -200; z -= 25)`:
`-20, -45, …, -195` (the next value `-220` fails the guard). -/
def initialGrassRowZs : List ℚ := (List.range 8).map fun i => -20 - 25 * (i : ℚ)

/-- One grass row: `n` patches at row coordinate `z`, each consuming one
draw for `x = centerBiasedRandom() * GRASS_SPREAD` and appended in order.
No separation test is performed here. -/
def spawnRowPatches (g : ℕ → ℚ) (z : ℚ) : ℕ → ℕ → List Pos → List Pos × ℕ
  | 0, k, acc => (acc, k)
  | n + 1, k, acc => spawnRowPatches g z n (k + 1) (acc ++ [⟨g k * GRASS_SPREAD, z⟩])

/-- All grass rows in order. -/
def spawnGrassRows (g : ℕ → ℚ) : List ℚ → ℕ → List Pos → List Pos × ℕ
  | [], k, acc => (acc, k)
  | z :: zs, k, acc =>
    let r := spawnRowPatches g z (patchesInRow z) k acc
    spawnGrassRows g zs r.2 r.1

/-- The inner tree loop (`for (let j = 0; j < 30; j++)`): each attempt
consumes one draw for `x = (Math.random() * 2 - 1) * TREE_SPREAD` and the
tree is pushed only if it passes the separation test against the trees
placed so far. -/
def spawnTreeAttempts (g : ℕ → ℚ) (z : ℚ) : ℕ → ℕ → List Pos → List Pos × ℕ
  | 0, k, ts => (ts, k)
  | j + 1, k, ts =>
    let x := (2 * g k - 1) * TREE_SPREAD
    spawnTreeAttempts g z j (k + 1) (if tooCloseTo ts x z then ts else ts ++ [⟨x, z⟩])

/-- The outer tree loop (`for (let i = 0; i < 10; i++)`) with
`z = -100 - (i * 10)`. -/
def spawnTreeRows (g : ℕ → ℚ) : List ℕ → ℕ → List Pos → List Pos × ℕ
  | [], k, ts => (ts, k)
  | i :: is, k, ts =>
    let r := spawnTreeAttempts g (-100 - 10 * (i : ℚ)) 30 k ts
    spawnTreeRows g is r.2 r.1

/-- The manager's live sets (`grassPatches`, `trees`).  The scene holds a
rendering handle to exactly these instances; the manager is their single
writer. -/
structure VegState where
  grassPatches : List Pos
  trees : List Pos
deriving DecidableEq, Repr

/-- The grass block of `createInitialVegetation` (lines 130–141): the big
patch `createGrassPatch(scene, 0, -40, …)` followed by the rows. -/
def initialGrass (g : ℕ → ℚ) (k : ℕ) : List Pos × ℕ :=
  spawnGrassRows g initialGrassRowZs k [⟨0, -40⟩]

/-- The tree block of `createInitialVegetation` (lines 143–153), starting
from the freshly cleared `trees = []`. -/
def initialTrees (g : ℕ → ℚ) (k : ℕ) : List Pos × ℕ :=
  spawnTreeRows g (List.range 10) k []

/-- Function `createInitialVegetation(scene)`: removes every previously live
instance and resets both lists (lines 127–128, so the input state is
discarded), creates the big patch at `(0, -40)`, the grass rows, and the
tree grid. -/
def createInitialVegetation (g : ℕ → ℚ) (k : ℕ) (_st : VegState) : VegState × ℕ :=
  (⟨(initialGrass g k).1, (initialTrees g (initialGrass g k).2).1⟩,
    (initialTrees g (initialGrass g k).2).2)

/-! ## `updateVegetation` (vegetation-manager.js, lines 215–245) -/

/-- One step `obj.position.z += deltaZ` of the advance phase. -/
def movePos (deltaZ : ℚ) (p : Pos) : Pos := ⟨p.x, p.z + deltaZ⟩

/-- The advance phase `[...grassPatches, ...trees].forEach(obj => obj.position.z += deltaZ)`. -/
def advanceVeg (deltaZ : ℚ) (st : VegState) : VegState :=
  ⟨st.grassPatches.map (movePos deltaZ), st.trees.map (movePos deltaZ)⟩

/-- The removal/respawn loop for one kind, iterating the index downward
(`for (let i = list.length - 1; i >= 0; i--)`).  The first argument is
`i + 1` for the index `i` about to be examined; `eraseIdx` is `splice(i, 1)`
and a successful respawn is pushed at the end of the array.  When the index
is out of range `getD` yields a sentinel with `z = 0`, which fails the
removal guard — exactly the loop's no-op on an empty range. -/
def recycleAux (g : ℕ → ℚ) (isGrass : Bool) : ℕ → List Pos → ℕ → List Pos × ℕ
  | 0, ps, k => (ps, k)
  | i + 1, ps, k =>
    if REMOVAL_Z < (ps.getD i ⟨0, 0⟩).z then
      match createNewVegetation g isGrass (ps.eraseIdx i) k with
      | (some q, k') => recycleAux g isGrass i (ps.eraseIdx i ++ [q]) k'
      | (none, k') => recycleAux g isGrass i (ps.eraseIdx i) k'
    else
      recycleAux g isGrass i ps k

/-- The recycle phase: the grass loop runs to completion, then the tree
loop (lines 223–242). -/
def recycleVeg (g : ℕ → ℚ) (k : ℕ) (st : VegState) : VegState × ℕ :=
  let gr := recycleAux g true st.grassPatches.length st.grassPatches k
  let tr := recycleAux g false st.trees.length st.trees gr.2
  (⟨gr.1, tr.1⟩, tr.2)

/-- Function `updateVegetation(scene, deltaZ)` in its loaded steady state: move all
instances, then remove far-clipped grass (respawning each), then trees.
(The not-yet-loaded early return leaves the state untouched and is outside
this model.) -/
def updateVegetation (g : ℕ → ℚ) (k : ℕ) (st : VegState) (deltaZ : ℚ) : VegState × ℕ :=
  let movedGrass := st.grassPatches.map (movePos deltaZ)
  let movedTrees := st.trees.map (movePos deltaZ)
  let gr := recycleAux g true movedGrass.length movedGrass k
  let tr := recycleAux g false movedTrees.length movedTrees gr.2
  (⟨gr.1, tr.1⟩, tr.2)

/-- The separation invariant for one kind: every pair of live instances is
at squared distance at least `MIN_DISTANCE²` (equivalently, distance at
least `MIN_DISTANCE`). -/
def Separated (ps : List Pos) : Prop :=
  ps.Pairwise fun p q => MIN_DISTANCE * MIN_DISTANCE ≤ sqDist p q

/-- The steady-state travel window `[generationZ - spawnJitter, removalZ]`. -/
def InWindow (p : Pos) : Prop := GENERATION_Z - 50 ≤ p.z ∧ p.z ≤ REMOVAL_Z

instance (ps : List Pos) : Decidable (Separated ps) :=
  inferInstanceAs (Decidable (ps.Pairwise fun p q => MIN_DISTANCE * MIN_DISTANCE ≤ sqDist p q))

instance (p : Pos) : Decidable (InWindow p) :=
  inferInstanceAs (Decidable (GENERATION_Z - 50 ≤ p.z ∧ p.z ≤ REMOVAL_Z))

/-! ## Depth-driven blur: depth decoding (custom-dof.js, fragment shader lines 74–98)

The shader math is modelled over `ℝ`; `pow(x, 0.5)` is real exponentiation. -/

/-- The linearization steps of `readDepth`:
`viewZ = (cameraNear * cameraFar) / ((cameraFar - cameraNear) * fragCoordZ - cameraFar)`,
`linearDepth = (-viewZ - cameraNear) / (cameraFar - cameraNear)`. -/
noncomputable def readDepthLinear (near far fragCoordZ : ℝ) : ℝ :=
  (-((near * far) / ((far - near) * fragCoordZ - far)) - near) / (far - near)

/-- The value `readDepth` actually returns:
`return pow(linearDepth * 10.0, 0.5);` (the `smoothstep` variant is
commented out in the source). -/
noncomputable def readDepth (near far fragCoordZ : ℝ) : ℝ :=
  (readDepthLinear near far fragCoordZ * 10) ^ ((1 : ℝ) / 2)

/-- The radius `float blurSize = depth * maxBlurSize;` — the per-pixel blur radius. -/
noncomputable def blurSizeOf (near far maxBlurSize fragCoordZ : ℝ) : ℝ :=
  readDepth near far fragCoordZ * maxBlurSize

/-- The non-linear depth-buffer value written for a fragment at view-space
coordinate `viewZ` by a perspective camera (three.js
`viewZToPerspectiveDepth`); it is the inverse of the shader's `viewZ`
reconstruction. -/
noncomputable def viewZToPerspectiveDepth (near far viewZ : ℝ) : ℝ :=
  ((near + viewZ) * far) / ((far - near) * viewZ)

/-! ## Depth-driven blur: layer exclusion (custom-dof.js, lines 135–197)

The scene is modelled as the flat list of objects in traversal order; the
`originalVisibility` map, keyed by object identity in the source, is keyed
here by traversal position. -/

/-- A scene-graph object as the pass sees it: its layer bitmask
(`object.layers.mask`) and its `visible` flag. -/
structure SceneObj where
  layerMask : ℕ
  visible : Bool
deriving DecidableEq, Repr

/-- The test `object.layers.test({mask: 1 << layer})` — three.js layer test:
`(mask & (1 << layer)) !== 0`. -/
def layersTest (mask layer : ℕ) : Bool := decide (mask &&& (1 <<< layer) ≠ 0)

/-- Whether the `for (let layer of this.excludedLayers)` loop finds a
matching excluded layer for `o`. -/
def matchesExcluded (excluded : List ℕ) (o : SceneObj) : Bool :=
  excluded.any (layersTest o.layerMask)

/-- The hiding traverse (lines 157–169): each matching object has its
current `visible` recorded in `originalVisibility` and is then hidden.
Returns the scene as the depth render sees it and the saved entries in
traversal order. -/
def hideExcluded (excluded : List ℕ) : ℕ → List SceneObj → List SceneObj × List (ℕ × Bool)
  | _, [] => ([], [])
  | i, o :: os =>
    let r := hideExcluded excluded (i + 1) os
    if matchesExcluded excluded o then ({ o with visible := false } :: r.1, (i, o.visible) :: r.2)
    else (o :: r.1, r.2)

/-- Write `visible := v` at position `i` (out-of-range writes are no-ops;
they never occur for saved entries). -/
def setVis : List SceneObj → ℕ → Bool → List SceneObj
  | [], _, _ => []
  | o :: os, 0, v => { o with visible := v } :: os
  | o :: os, i + 1, v => o :: setVis os i v

/-- The restore loop `this.originalVisibility.forEach((visible, object) => { object.visible = visible; })`
(lines 179–184), applied in insertion order. -/
def restoreVisibility (saved : List (ℕ × Bool)) (sc : List SceneObj) : List SceneObj :=
  saved.foldl (fun s p => setVis s p.1 p.2) sc

/-- The visibility effect of `DepthDrivenBlurPass.render`: hide the
excluded layers (only when some layer is registered, line 157), render
depth against the hidden scene, then restore.  Returns the scene state the
depth pre-pass renders and the scene state after `render` returns (which
the main color pass of subsequent frames sees). -/
def dofRenderVisibility (excluded : List ℕ) (scene : List SceneObj) :
    List SceneObj × List SceneObj :=
  let hr := if excluded.isEmpty then (scene, []) else hideExcluded excluded 0 scene
  (hr.1, restoreVisibility hr.2 hr.1)

/-! ## Resize bookkeeping (custom-dof.js `setSize`, chromatic-aberration.js,
app.js `onWindowResize`)

`onWindowResize` calls `composer.setSize(w, h)`, and three.js
`EffectComposer.setSize` calls `pass.setSize(w, h)` on every pass.  The
base `Pass.setSize` is an empty method; `DepthDrivenBlurPass` overrides it,
`ChromaticAberrationPass` does not. -/

/-- Resolution-dependent state of `DepthDrivenBlurPass`: the depth render
target's pixel size and the `resolution` uniform. -/
structure DepthBlurPassRes where
  depthTargetW : ℕ
  depthTargetH : ℕ
  resolution : ℕ × ℕ
deriving DecidableEq, Repr

/-- Method `DepthDrivenBlurPass.setSize` (lines 199–202): resizes the depth
target and updates the `resolution` uniform. -/
def depthBlurSetSize (_p : DepthBlurPassRes) (w h : ℕ) : DepthBlurPassRes := ⟨w, h, (w, h)⟩

/-- Resolution-dependent state of `ChromaticAberrationPass`: its
`resolution` uniform. -/
structure CAPassRes where
  resolution : ℕ × ℕ
deriving DecidableEq, Repr

/-- Class `ChromaticAberrationPass` inherits the base `Pass.setSize`, which is
an empty method. -/
def caPassSetSize (p : CAPassRes) (_w _h : ℕ) : CAPassRes := p

/-- Method `ChromaticAberrationPass.update(renderer, width, height)` (lines
92–102): sets the `resolution` uniform only under `if (width && height)`
(`0` is falsy). -/
def caPassUpdate (p : CAPassRes) (w h : ℕ) : CAPassRes :=
  if w ≠ 0 ∧ h ≠ 0 then ⟨(w, h)⟩ else p

/-- The two custom resolution-dependent passes of the composer chain. -/
structure Pipeline where
  depthBlur : DepthBlurPassRes
  chromatic : CAPassRes
deriving DecidableEq, Repr

/-- Method `EffectComposer.setSize(w, h)`: calls `setSize` on every pass. -/
def composerSetSize (pl : Pipeline) (w h : ℕ) : Pipeline :=
  ⟨depthBlurSetSize pl.depthBlur w h, caPassSetSize pl.chromatic w h⟩

/-- Pass construction in `setupPostProcessing` (app.js lines 814–831) at
window size `w × h`: the blur pass allocates its target and resolution
uniform at the window size; the aberration pass starts from the shader's
default `(128, 128)` and receives one explicit
`update(renderer, window.innerWidth, window.innerHeight)` call. -/
def setupPipeline (w h : ℕ) : Pipeline :=
  ⟨⟨w, h, (w, h)⟩, caPassUpdate ⟨(128, 128)⟩ w h⟩

/-- Handler `onWindowResize` (app.js lines 855–863): `composer.setSize(w, h)`. -/
def onWindowResize (pl : Pipeline) (w h : ℕ) : Pipeline := composerSetSize pl w h

/-! ## Lemmas about the spawn and recycle operations -/


theorem tooCloseTo_eq_false {ex : List Pos} {x z : ℚ} :
    tooCloseTo ex x z = false ↔
      ∀ p ∈ ex, MIN_DISTANCE * MIN_DISTANCE ≤ (p.x - x) ^ 2 + (p.z - z) ^ 2 := by
  simp [tooCloseTo, not_lt]

theorem acceptCandidate_eq_true {g : ℕ → ℚ} {k : ℕ} {isGrass : Bool} {ex : List Pos} :
    acceptCandidate g k isGrass ex = true ↔
      tooCloseTo ex (candidateX g k isGrass) (candidateZ g k) = false ∧
        (isGrass = false → TREE_CLEARANCE_FROM_CENTER ≤ |candidateX g k isGrass|) := by
  cases isGrass <;> simp [acceptCandidate, not_lt]

theorem createNewAttempts_some {g : ℕ → ℚ} {isGrass : Bool} {ex : List Pos} :
    ∀ {a k q k'}, createNewAttempts g isGrass ex a k = (some q, k') →
      ∃ j, q = ⟨candidateX g j isGrass, candidateZ g j⟩ ∧ acceptCandidate g j isGrass ex = true := by
  intro a
  induction a with
  | zero => intro k q k' h; simp [createNewAttempts] at h
  | succ a ih =>
    intro k q k' h
    by_cases hacc : acceptCandidate g k isGrass ex = true
    · rw [createNewAttempts, if_pos hacc] at h
      simp only [Prod.mk.injEq, Option.some.injEq] at h
      exact ⟨k, h.1.symm, hacc⟩
    · rw [createNewAttempts, if_neg hacc] at h
      exact ih h

theorem separated_append_spawn {ps : List Pos} {x z : ℚ} (h : Separated ps)
    (hf : tooCloseTo ps x z = false) : Separated (ps ++ [⟨x, z⟩]) := by
  rw [Separated, List.pairwise_append]
  refine ⟨h, List.pairwise_singleton _ _, ?_⟩
  intro a ha b hb
  rw [List.mem_singleton] at hb
  subst hb
  exact tooCloseTo_eq_false.1 hf a ha

theorem separated_eraseIdx {ps : List Pos} {i : ℕ} (h : Separated ps) :
    Separated (ps.eraseIdx i) := h.sublist (List.eraseIdx_sublist ps i)

theorem recycleAux_sep {g : ℕ → ℚ} {gr : Bool} :
    ∀ (i : ℕ) (ps : List Pos) (k : ℕ), Separated ps → Separated (recycleAux g gr i ps k).1 := by
  intro i
  induction i with
  | zero => intro ps k h; exact h
  | succ i ih =>
    intro ps k h
    rw [recycleAux]
    by_cases hz : REMOVAL_Z < (ps.getD i ⟨0, 0⟩).z
    · rw [if_pos hz]
      rcases hcv : createNewVegetation g gr (ps.eraseIdx i) k with ⟨o, k'⟩
      cases o with
      | none => exact ih _ _ (separated_eraseIdx h)
      | some q =>
        obtain ⟨j, hq, hacc⟩ := createNewAttempts_some hcv
        have hsep := (acceptCandidate_eq_true.1 hacc).1
        subst hq
        exact ih _ _ (separated_append_spawn (separated_eraseIdx h) hsep)
    · rw [if_neg hz]; exact ih _ _ h



theorem recycleAux_no_cross {g : ℕ → ℚ} {gr : Bool} :
    ∀ (i : ℕ) (ps : List Pos) (k : ℕ), (∀ p ∈ ps, p.z ≤ REMOVAL_Z) →
      recycleAux g gr i ps k = (ps, k) := by
  intro i
  induction i with
  | zero => intro ps k _; rfl
  | succ i ih =>
    intro ps k h
    have hz : ¬ REMOVAL_Z < (ps.getD i ⟨0, 0⟩).z := by
      by_cases hi : i < ps.length
      · rw [List.getD_eq_getElem ps ⟨0, 0⟩ hi]
        exact not_lt.2 (h _ (List.getElem_mem hi))
      · rw [List.getD_eq_default ps ⟨0, 0⟩ (le_of_not_lt hi)]
        norm_num [REMOVAL_Z]
    rw [recycleAux, if_neg hz]
    exact ih ps k h

theorem recycleAux_len_le {g : ℕ → ℚ} {gr : Bool} :
    ∀ (i : ℕ) (ps : List Pos) (k : ℕ), (recycleAux g gr i ps k).1.length ≤ ps.length := by
  intro i
  induction i with
  | zero => intro ps k; exact le_rfl
  | succ i ih =>
    intro ps k
    rw [recycleAux]
    by_cases hz : REMOVAL_Z < (ps.getD i ⟨0, 0⟩).z
    · rw [if_pos hz]
      have hi : i < ps.length := by
        by_contra hi
        rw [List.getD_eq_default ps ⟨0, 0⟩ (le_of_not_lt hi)] at hz
        norm_num [REMOVAL_Z] at hz
      have hlen := List.length_eraseIdx_of_lt hi
      rcases hcv : createNewVegetation g gr (ps.eraseIdx i) k with ⟨o, k'⟩
      cases o with
      | none =>
        calc (recycleAux g gr i (ps.eraseIdx i) k').1.length
            ≤ (ps.eraseIdx i).length := ih _ _
          _ ≤ ps.length := by rw [hlen]; omega
      | some q =>
        calc (recycleAux g gr i (ps.eraseIdx i ++ [q]) k').1.length
            ≤ (ps.eraseIdx i ++ [q]).length := ih _ _
          _ ≤ ps.length := by simp [hlen]; omega
    · rw [if_neg hz]; exact ih ps k

theorem recycleAux_keep {g : ℕ → ℚ} {gr : Bool} :
    ∀ (i : ℕ) (ps : List Pos) (k : ℕ) (r : Pos), r ∈ ps → r.z ≤ REMOVAL_Z →
      r ∈ (recycleAux g gr i ps k).1 := by
  intro i
  induction i with
  | zero => intro ps k r hr _; exact hr
  | succ i ih =>
    intro ps k r hr hrz
    rw [recycleAux]
    by_cases hz : REMOVAL_Z < (ps.getD i ⟨0, 0⟩).z
    · rw [if_pos hz]
      have hi : i < ps.length := by
        by_contra hi
        rw [List.getD_eq_default ps ⟨0, 0⟩ (le_of_not_lt hi)] at hz
        norm_num [REMOVAL_Z] at hz
      rw [List.getD_eq_getElem ps ⟨0, 0⟩ hi] at hz
      have hne : r ≠ ps[i] := by
        intro he
        rw [← he] at hz
        exact absurd hrz (not_le.2 hz)
      have hmem : r ∈ ps.eraseIdx i := by
        obtain ⟨j, hj, hval⟩ := List.getElem_of_mem hr
        rw [List.mem_eraseIdx_iff_getElem]
        refine ⟨j, hj, ?_, hval⟩
        intro hji
        subst hji
        exact hne hval.symm
      rcases hcv : createNewVegetation g gr (ps.eraseIdx i) k with ⟨o, k'⟩
      cases o with
      | none => exact ih _ _ _ hmem hrz
      | some q => exact ih _ _ _ (List.mem_append_left _ hmem) hrz
    · rw [if_neg hz]; exact ih _ _ _ hr hrz

theorem recycleAux_mem {g : ℕ → ℚ} {gr : Bool} :
    ∀ (i : ℕ) (ps : List Pos) (k : ℕ) (r : Pos), r ∈ (recycleAux g gr i ps k).1 →
      r ∈ ps.drop i ∨ (r ∈ ps ∧ r.z ≤ REMOVAL_Z) ∨ ∃ j, r.z = candidateZ g j := by
  intro i
  induction i with
  | zero => intro ps k r hr; exact Or.inl (by simpa using hr)
  | succ i ih =>
    intro ps k r hr
    rw [recycleAux] at hr
    by_cases hz : REMOVAL_Z < (ps.getD i ⟨0, 0⟩).z
    · rw [if_pos hz] at hr
      have hi : i < ps.length := by
        by_contra hi
        rw [List.getD_eq_default ps ⟨0, 0⟩ (le_of_not_lt hi)] at hz
        norm_num [REMOVAL_Z] at hz
      have herase : ps.eraseIdx i = ps.take i ++ ps.drop (i + 1) :=
        List.eraseIdx_eq_take_drop_succ ps i
      have htl : (ps.take i).length = i := List.length_take_of_le (le_of_lt hi)
      rcases hcv : createNewVegetation g gr (ps.eraseIdx i) k with ⟨o, k'⟩
      rw [hcv] at hr
      cases o with
      | none =>
        rcases ih _ _ _ hr with h1 | h2 | h3
        · -- r ∈ (ps.eraseIdx i).drop i = ps.drop (i+1)
          rw [herase, List.drop_left' htl] at h1
          exact Or.inl h1
        · exact Or.inr (Or.inl ⟨(List.eraseIdx_sublist ps i).mem h2.1, h2.2⟩)
        · exact Or.inr (Or.inr h3)
      | some q =>
        obtain ⟨j, hq, _⟩ := createNewAttempts_some hcv
        rcases ih _ _ _ hr with h1 | h2 | h3
        · rw [herase, List.append_assoc, List.drop_left' htl] at h1
          rcases List.mem_append.1 h1 with h1a | h1b
          · exact Or.inl h1a
          · rw [List.mem_singleton] at h1b
            subst h1b
            exact Or.inr (Or.inr ⟨j, by rw [hq]⟩)
        · rcases List.mem_append.1 h2.1 with h2a | h2b
          · exact Or.inr (Or.inl ⟨(List.eraseIdx_sublist ps i).mem h2a, h2.2⟩)
          · rw [List.mem_singleton] at h2b
            subst h2b
            exact Or.inr (Or.inr ⟨j, by rw [hq]⟩)
        · exact Or.inr (Or.inr h3)
    · rw [if_neg hz] at hr
      rcases ih _ _ _ hr with h1 | h2 | h3
      · by_cases hi : i < ps.length
        · rw [List.drop_eq_getElem_cons hi] at h1
          rcases List.mem_cons.1 h1 with h1a | h1b
          · rw [List.getD_eq_getElem ps ⟨0, 0⟩ hi] at hz
            subst h1a
            exact Or.inr (Or.inl ⟨List.getElem_mem hi, not_lt.1 hz⟩)
          · exact Or.inl h1b
        · rw [List.drop_eq_nil_of_le (le_of_not_lt hi)] at h1
          simp at h1
      · exact Or.inr (Or.inl h2)
      · exact Or.inr (Or.inr h3)



theorem candidateZ_mem {g : ℕ → ℚ} (hw : RngWF g) (j : ℕ) :
    GENERATION_Z - 50 < candidateZ g j ∧ candidateZ g j ≤ GENERATION_Z + 50 := by
  obtain ⟨h1, h2⟩ := hw (j + 1)
  unfold candidateZ
  constructor <;> [linarith; linarith]

theorem updateVegetation_grass (g : ℕ → ℚ) (k : ℕ) (st : VegState) (d : ℚ) :
    (updateVegetation g k st d).1.grassPatches =
      (recycleAux g true (st.grassPatches.map (movePos d)).length
        (st.grassPatches.map (movePos d)) k).1 := rfl

theorem updateVegetation_trees (g : ℕ → ℚ) (k : ℕ) (st : VegState) (d : ℚ) :
    (updateVegetation g k st d).1.trees =
      (recycleAux g false (st.trees.map (movePos d)).length (st.trees.map (movePos d))
        (recycleAux g true (st.grassPatches.map (movePos d)).length
          (st.grassPatches.map (movePos d)) k).2).1 := rfl

theorem spawnRowPatches_acc (g : ℕ → ℚ) (z : ℚ) :
    ∀ (n k : ℕ) (acc : List Pos), ∃ us, (spawnRowPatches g z n k acc).1 = acc ++ us ∧
      ∀ u ∈ us, u.z = z := by
  intro n
  induction n with
  | zero => intro k acc; exact ⟨[], by simp [spawnRowPatches]⟩
  | succ n ih =>
    intro k acc
    obtain ⟨us, hus, hz⟩ := ih (k + 1) (acc ++ [⟨g k * GRASS_SPREAD, z⟩])
    refine ⟨⟨g k * GRASS_SPREAD, z⟩ :: us, ?_, ?_⟩
    · rw [spawnRowPatches, hus, List.append_assoc]; rfl
    · intro u hu
      rcases List.mem_cons.1 hu with h | h
      · rw [h]
      · exact hz u h

theorem spawnGrassRows_acc (g : ℕ → ℚ) :
    ∀ (zs : List ℚ) (k : ℕ) (acc : List Pos), ∃ us, (spawnGrassRows g zs k acc).1 = acc ++ us := by
  intro zs
  induction zs with
  | nil => intro k acc; exact ⟨[], by simp [spawnGrassRows]⟩
  | cons z zs ih =>
    intro k acc
    obtain ⟨us, hus, _⟩ := spawnRowPatches_acc g z (patchesInRow z) k acc
    obtain ⟨vs, hvs⟩ := ih (spawnRowPatches g z (patchesInRow z) k acc).2
      (spawnRowPatches g z (patchesInRow z) k acc).1
    exact ⟨us ++ vs, by rw [spawnGrassRows, hvs, hus, List.append_assoc]⟩

theorem patchesInRow_pos (z : ℚ) : 0 < patchesInRow z :=
  lt_of_lt_of_le (by norm_num) (le_max_left 2 _)

theorem spawnGrassRows_mem_z (g : ℕ → ℚ) :
    ∀ (zs : List ℚ) (k : ℕ) (acc : List Pos) (z : ℚ), z ∈ zs →
      ∃ p ∈ (spawnGrassRows g zs k acc).1, p.z = z := by
  intro zs
  induction zs with
  | nil => intro k acc z hz; simp at hz
  | cons z0 zs ih =>
    intro k acc z hz
    rcases List.mem_cons.1 hz with h | h
    · subst h
      obtain ⟨m, hm⟩ := Nat.exists_eq_succ_of_ne_zero (Nat.pos_iff_ne_zero.1 (patchesInRow_pos z))
      have hrow : spawnRowPatches g z (patchesInRow z) k acc =
          spawnRowPatches g z m (k + 1) (acc ++ [⟨g k * GRASS_SPREAD, z⟩]) := by
        rw [hm]; rfl
      obtain ⟨us, hus, _⟩ := spawnRowPatches_acc g z m (k + 1) (acc ++ [⟨g k * GRASS_SPREAD, z⟩])
      obtain ⟨vs, hvs⟩ := spawnGrassRows_acc g zs (spawnRowPatches g z (patchesInRow z) k acc).2
        (spawnRowPatches g z (patchesInRow z) k acc).1
      refine ⟨⟨g k * GRASS_SPREAD, z⟩, ?_, rfl⟩
      rw [spawnGrassRows, hvs, hrow, hus]
      simp
    · exact ih _ _ z h

theorem spawnRowPatches_len (g : ℕ → ℚ) (z : ℚ) :
    ∀ (n k : ℕ) (acc : List Pos), (spawnRowPatches g z n k acc).1.length = acc.length + n := by
  intro n
  induction n with
  | zero => intro k acc; rfl
  | succ n ih =>
    intro k acc
    rw [spawnRowPatches, ih]
    simp
    omega

theorem spawnGrassRows_len (g : ℕ → ℚ) :
    ∀ (zs : List ℚ) (k : ℕ) (acc : List Pos),
      (spawnGrassRows g zs k acc).1.length = acc.length + (zs.map patchesInRow).sum := by
  intro zs
  induction zs with
  | nil => intro k acc; simp [spawnGrassRows]
  | cons z zs ih =>
    intro k acc
    rw [spawnGrassRows, ih, spawnRowPatches_len]
    simp
    omega

theorem spawnTreeAttempts_acc (g : ℕ → ℚ) (z : ℚ) :
    ∀ (j k : ℕ) (ts : List Pos), ∃ us, (spawnTreeAttempts g z j k ts).1 = ts ++ us := by
  intro j
  induction j with
  | zero => intro k ts; exact ⟨[], by simp [spawnTreeAttempts]⟩
  | succ j ih =>
    intro k ts
    rw [spawnTreeAttempts]
    by_cases hc : tooCloseTo ts ((2 * g k - 1) * TREE_SPREAD) z
    · rw [if_pos hc]; exact ih (k + 1) ts
    · rw [if_neg hc]
      obtain ⟨us, hus⟩ := ih (k + 1) (ts ++ [⟨(2 * g k - 1) * TREE_SPREAD, z⟩])
      exact ⟨⟨(2 * g k - 1) * TREE_SPREAD, z⟩ :: us, by rw [hus, List.append_assoc]; rfl⟩

theorem spawnTreeRows_acc (g : ℕ → ℚ) :
    ∀ (is : List ℕ) (k : ℕ) (ts : List Pos), ∃ us, (spawnTreeRows g is k ts).1 = ts ++ us := by
  intro is
  induction is with
  | nil => intro k ts; exact ⟨[], by simp [spawnTreeRows]⟩
  | cons i is ih =>
    intro k ts
    obtain ⟨us, hus⟩ := spawnTreeAttempts_acc g (-100 - 10 * (i : ℚ)) 30 k ts
    obtain ⟨vs, hvs⟩ := ih (spawnTreeAttempts g (-100 - 10 * (i : ℚ)) 30 k ts).2
      (spawnTreeAttempts g (-100 - 10 * (i : ℚ)) 30 k ts).1
    exact ⟨us ++ vs, by rw [spawnTreeRows, hvs, hus, List.append_assoc]⟩

theorem spawnTreeAttempts_sep (g : ℕ → ℚ) (z : ℚ) :
    ∀ (j k : ℕ) (ts : List Pos), Separated ts → Separated (spawnTreeAttempts g z j k ts).1 := by
  intro j
  induction j with
  | zero => intro k ts h; exact h
  | succ j ih =>
    intro k ts h
    rw [spawnTreeAttempts]
    by_cases hc : tooCloseTo ts ((2 * g k - 1) * TREE_SPREAD) z
    · rw [if_pos hc]; exact ih _ _ h
    · rw [if_neg hc]
      exact ih _ _ (separated_append_spawn h (eq_false_of_ne_true hc))

theorem spawnTreeRows_sep (g : ℕ → ℚ) :
    ∀ (is : List ℕ) (k : ℕ) (ts : List Pos), Separated ts →
      Separated (spawnTreeRows g is k ts).1 := by
  intro is
  induction is with
  | nil => intro k ts h; exact h
  | cons i is ih =>
    intro k ts h
    exact ih _ _ (spawnTreeAttempts_sep g _ 30 k ts h)

theorem createInitialVegetation_grass (g : ℕ → ℚ) (k : ℕ) (st : VegState) :
    (createInitialVegetation g k st).1.grassPatches = (initialGrass g k).1 := rfl

theorem createInitialVegetation_trees (g : ℕ → ℚ) (k : ℕ) (st : VegState) :
    (createInitialVegetation g k st).1.trees =
      (initialTrees g (initialGrass g k).2).1 := by
  simp only [createInitialVegetation]

/-! ## Lemmas for the layer-exclusion visibility protocol -/


theorem restoreVisibility_shift (o : SceneObj) :
    ∀ (saved : List (ℕ × Bool)) (sc : List SceneObj), (∀ p ∈ saved, 1 ≤ p.1) →
      restoreVisibility saved (o :: sc) =
        o :: restoreVisibility (saved.map fun p => (p.1 - 1, p.2)) sc := by
  intro saved
  induction saved with
  | nil => intro sc _; rfl
  | cons p rest ih =>
    intro sc h
    obtain ⟨j, hj⟩ : ∃ j, p.1 = j + 1 :=
      ⟨p.1 - 1, (Nat.succ_pred_eq_of_pos (h p (List.mem_cons_self _ _))).symm⟩
    have hstep : restoreVisibility (p :: rest) (o :: sc) =
        restoreVisibility rest (setVis (o :: sc) p.1 p.2) := rfl
    rw [hstep, hj]
    have hset : setVis (o :: sc) (j + 1) p.2 = o :: setVis sc j p.2 := rfl
    rw [hset, ih _ fun q hq => h q (List.mem_cons_of_mem _ hq)]
    have hmap : (p :: rest).map (fun q => (q.1 - 1, q.2)) =
        (j, p.2) :: rest.map fun q => (q.1 - 1, q.2) := by
      simp [hj]
    rw [hmap]
    rfl

theorem hideExcluded_shift (ex : List ℕ) :
    ∀ (os : List SceneObj) (i : ℕ), hideExcluded ex (i + 1) os =
      ((hideExcluded ex i os).1, (hideExcluded ex i os).2.map fun p => (p.1 + 1, p.2)) := by
  intro os
  induction os with
  | nil => intro i; rfl
  | cons o os ih =>
    intro i
    rw [hideExcluded, hideExcluded, ih (i + 1)]
    by_cases hm : matchesExcluded ex o
    · simp [hm]
    · simp [hm]

theorem hideExcluded_saved_ge (ex : List ℕ) :
    ∀ (os : List SceneObj) (i : ℕ), ∀ p ∈ (hideExcluded ex i os).2, i ≤ p.1 := by
  intro os
  induction os with
  | nil => intro i p hp; simp [hideExcluded] at hp
  | cons o os ih =>
    intro i p hp
    rw [hideExcluded] at hp
    by_cases hm : matchesExcluded ex o
    · rw [if_pos hm] at hp
      rcases List.mem_cons.1 hp with h | h
      · rw [h]
      · exact le_trans (Nat.le_succ i) (ih (i + 1) p h)
    · rw [if_neg hm] at hp
      exact le_trans (Nat.le_succ i) (ih (i + 1) p hp)

theorem restore_hideExcluded (ex : List ℕ) :
    ∀ os : List SceneObj,
      restoreVisibility (hideExcluded ex 0 os).2 (hideExcluded ex 0 os).1 = os := by
  intro os
  induction os with
  | nil => rfl
  | cons o os ih =>
    have hshift := hideExcluded_shift ex os 0
    have hge : ∀ p ∈ (hideExcluded ex 0 os).2.map (fun q => (q.1 + 1, q.2)), 1 ≤ p.1 := by
      intro p hp
      obtain ⟨q, _, hq⟩ := List.mem_map.1 hp
      subst hq
      simp
    have hunmap : ((hideExcluded ex 0 os).2.map (fun q => (q.1 + 1, q.2))).map
        (fun q => (q.1 - 1, q.2)) = (hideExcluded ex 0 os).2 := by
      rw [List.map_map]
      have : ((fun q : ℕ × Bool => (q.1 - 1, q.2)) ∘ fun q : ℕ × Bool => (q.1 + 1, q.2)) =
          id := by
        funext q; simp
      rw [this, List.map_id]
    rw [hideExcluded, hshift]
    by_cases hm : matchesExcluded ex o
    · rw [if_pos hm]
      have hstep : restoreVisibility
          ((0, o.visible) :: (hideExcluded ex 0 os).2.map (fun q => (q.1 + 1, q.2)))
          ({ o with visible := false } :: (hideExcluded ex 0 os).1) =
          restoreVisibility ((hideExcluded ex 0 os).2.map (fun q => (q.1 + 1, q.2)))
            ({ { o with visible := false } with visible := o.visible } ::
              (hideExcluded ex 0 os).1) := rfl
      rw [hstep]
      have ho : { { o with visible := false } with visible := o.visible } = o := by
        cases o; rfl
      rw [ho, restoreVisibility_shift o _ _ hge, hunmap, ih]
    · rw [if_neg hm]
      rw [restoreVisibility_shift o _ _ hge, hunmap, ih]

theorem hideExcluded_hidden (ex : List ℕ) :
    ∀ (os : List SceneObj) (i : ℕ), ∀ o ∈ (hideExcluded ex i os).1,
      matchesExcluded ex o = true → o.visible = false := by
  intro os
  induction os with
  | nil => intro i o ho; simp [hideExcluded] at ho
  | cons o os ih =>
    intro i o' ho' hm'
    rw [hideExcluded] at ho'
    by_cases hm : matchesExcluded ex o
    · rw [if_pos hm] at ho'
      rcases List.mem_cons.1 ho' with h | h
      · rw [h]
      · exact ih (i + 1) o' h hm'
    · rw [if_neg hm] at ho'
      rcases List.mem_cons.1 ho' with h | h
      · subst h; exact absurd hm' (by simp [hm])
      · exact ih (i + 1) o' h hm'

/-! ## Lemmas over the reals: the biased draw and the depth shader -/


theorem centerBiasedRandom_mem {r : ℝ} (h0 : 0 ≤ r) (h1 : r < 1) :
    -1 ≤ centerBiasedRandom r ∧ centerBiasedRandom r < 1 := by
  unfold centerBiasedRandom
  constructor
  · have h := Real.rpow_nonneg h0 ((3 : ℝ) / 2)
    linarith
  · have h : r ^ ((3 : ℝ) / 2) < 1 := by
      rcases eq_or_lt_of_le h0 with h | h
      · rw [← h, Real.zero_rpow (by norm_num)]; norm_num
      · exact Real.rpow_lt_one h0 h1 (by norm_num)
    linarith

theorem readDepthLinear_roundtrip {near far viewZ : ℝ} (h0 : 0 < near) (h1 : near < far)
    (hv : viewZ < 0) :
    readDepthLinear near far (viewZToPerspectiveDepth near far viewZ) =
      (-viewZ - near) / (far - near) := by
  have hfn : far - near ≠ 0 := ne_of_gt (by linarith)
  have hvz : viewZ ≠ 0 := ne_of_lt hv
  have hnf : near * far ≠ 0 := ne_of_gt (mul_pos h0 (lt_trans h0 h1))
  unfold readDepthLinear viewZToPerspectiveDepth
  have key : (far - near) * (((near + viewZ) * far) / ((far - near) * viewZ)) - far
      = near * far / viewZ := by
    field_simp
    ring
  rw [key]
  have h2 : near * far / (near * far / viewZ) = viewZ := by
    field_simp
  rw [h2]

theorem readDepth_eq_sqrt (near far fragZ : ℝ) :
    readDepth near far fragZ = Real.sqrt (readDepthLinear near far fragZ * 10) := by
  unfold readDepth
  rw [Real.sqrt_eq_rpow]



theorem separated_map_move {ps : List Pos} (d : ℚ) (h : Separated ps) :
    Separated (ps.map (movePos d)) := by
  refine List.Pairwise.map (movePos d) ?_ h
  intro p q hpq
  simpa [sqDist, movePos] using hpq

theorem updateVegetation_keep_grass (g : ℕ → ℚ) (k : ℕ) (st : VegState) (d : ℚ) (p : Pos)
    (hp : p ∈ st.grassPatches) (hz : p.z + d ≤ REMOVAL_Z) :
    movePos d p ∈ (updateVegetation g k st d).1.grassPatches := by
  rw [updateVegetation_grass]
  exact recycleAux_keep _ _ _ _ (List.mem_map_of_mem _ hp) hz

theorem updateVegetation_keep_trees (g : ℕ → ℚ) (k : ℕ) (st : VegState) (d : ℚ) (p : Pos)
    (hp : p ∈ st.trees) (hz : p.z + d ≤ REMOVAL_Z) :
    movePos d p ∈ (updateVegetation g k st d).1.trees := by
  rw [updateVegetation_trees]
  exact recycleAux_keep _ _ _ _ (List.mem_map_of_mem _ hp) hz

theorem spawnTreeAttempts_len (g : ℕ → ℚ) (z : ℚ) :
    ∀ (j k : ℕ) (ts : List Pos), (spawnTreeAttempts g z j k ts).1.length ≤ ts.length + j := by
  intro j
  induction j with
  | zero => intro k ts; exact Nat.le_refl _
  | succ j ih =>
    intro k ts
    rw [spawnTreeAttempts]
    by_cases hc : tooCloseTo ts ((2 * g k - 1) * TREE_SPREAD) z
    · rw [if_pos hc]
      exact le_trans (ih (k + 1) ts) (by omega)
    · rw [if_neg hc]
      refine le_trans (ih (k + 1) _) ?_
      simp
      omega

theorem spawnTreeRows_len (g : ℕ → ℚ) :
    ∀ (is : List ℕ) (k : ℕ) (ts : List Pos),
      (spawnTreeRows g is k ts).1.length ≤ ts.length + 30 * is.length := by
  intro is
  induction is with
  | nil => intro k ts; simp [spawnTreeRows]
  | cons i is ih =>
    intro k ts
    rw [spawnTreeRows]
    refine le_trans (ih _ _) ?_
    have := spawnTreeAttempts_len g (-100 - 10 * (i : ℚ)) 30 k ts
    simp only [List.length_cons]
    omega

theorem createNewAttempts_none_iff {g : ℕ → ℚ} {gr : Bool} {ex : List Pos} :
    ∀ (a k : ℕ), (createNewAttempts g gr ex a k).1 = none ↔
      ∀ b < a, acceptCandidate g (k + 2 * b) gr ex = false := by
  intro a
  induction a with
  | zero => intro k; simp [createNewAttempts]
  | succ a ih =>
    intro k
    by_cases hacc : acceptCandidate g k gr ex = true
    · rw [createNewAttempts, if_pos hacc]
      simp only [show (some (⟨candidateX g k gr, candidateZ g k⟩ : Pos), k + 2).1 = some _ from rfl]
      constructor
      · intro h; exact absurd h (by simp)
      · intro h
        have := h 0 (by omega)
        rw [Nat.mul_zero, Nat.add_zero] at this
        rw [hacc] at this
        exact absurd this (by simp)
    · rw [createNewAttempts, if_neg hacc]
      rw [ih (k + 2)]
      constructor
      · intro h b hb
        rcases Nat.eq_zero_or_pos b with hb0 | hbpos
        · subst hb0
          rw [Nat.mul_zero, Nat.add_zero]
          exact eq_false_of_ne_true hacc
        · obtain ⟨c, hc⟩ := Nat.exists_eq_succ_of_ne_zero (Nat.pos_iff_ne_zero.1 hbpos)
          subst hc
          have := h c (by omega)
          rw [show k + 2 + 2 * c = k + 2 * (c + 1) by ring] at this
          exact this
      · intro h b hb
        have := h (b + 1) (by omega)
        rw [show k + 2 * (b + 1) = k + 2 + 2 * b by ring] at this
        exact this

theorem createNewAttempts_none_idx {g : ℕ → ℚ} {gr : Bool} {ex : List Pos} :
    ∀ (a k : ℕ), (createNewAttempts g gr ex a k).1 = none →
      (createNewAttempts g gr ex a k).2 = k + 2 * a := by
  intro a
  induction a with
  | zero => intro k _; simp [createNewAttempts]
  | succ a ih =>
    intro k h
    by_cases hacc : acceptCandidate g k gr ex = true
    · rw [createNewAttempts, if_pos hacc] at h
      exact absurd h (by simp)
    · rw [createNewAttempts, if_neg hacc] at h ⊢
      rw [ih (k + 2) h]
      ring



theorem initialGrassRowZs_eq :
    initialGrassRowZs = [-20, -45, -70, -95, -120, -145, -170, -195] := by
  unfold initialGrassRowZs
  norm_num [List.range_succ]

theorem patchesInRow_neg20 : patchesInRow (-20) = 5 := by
  unfold patchesInRow
  rw [show ⌊6 * (1 - |(-20 : ℚ)| / 200)⌋ = 5 by rw [Int.floor_eq_iff]; norm_num]
  rfl

theorem patchesInRow_neg45 : patchesInRow (-45) = 4 := by
  unfold patchesInRow
  rw [show ⌊6 * (1 - |(-45 : ℚ)| / 200)⌋ = 4 by rw [Int.floor_eq_iff]; norm_num]
  rfl

theorem patchesInRow_neg70 : patchesInRow (-70) = 3 := by
  unfold patchesInRow
  rw [show ⌊6 * (1 - |(-70 : ℚ)| / 200)⌋ = 3 by rw [Int.floor_eq_iff]; norm_num]
  rfl

theorem patchesInRow_neg95 : patchesInRow (-95) = 3 := by
  unfold patchesInRow
  rw [show ⌊6 * (1 - |(-95 : ℚ)| / 200)⌋ = 3 by rw [Int.floor_eq_iff]; norm_num]
  rfl

theorem patchesInRow_neg120 : patchesInRow (-120) = 2 := by
  unfold patchesInRow
  rw [show ⌊6 * (1 - |(-120 : ℚ)| / 200)⌋ = 2 by rw [Int.floor_eq_iff]; norm_num]
  rfl

theorem patchesInRow_neg145 : patchesInRow (-145) = 2 := by
  unfold patchesInRow
  rw [show ⌊6 * (1 - |(-145 : ℚ)| / 200)⌋ = 1 by rw [Int.floor_eq_iff]; norm_num]
  rfl

theorem patchesInRow_neg170 : patchesInRow (-170) = 2 := by
  unfold patchesInRow
  rw [show ⌊6 * (1 - |(-170 : ℚ)| / 200)⌋ = 0 by rw [Int.floor_eq_iff]; norm_num]
  rfl

theorem patchesInRow_neg195 : patchesInRow (-195) = 2 := by
  unfold patchesInRow
  rw [show ⌊6 * (1 - |(-195 : ℚ)| / 200)⌋ = 0 by rw [Int.floor_eq_iff]; norm_num]
  rfl

theorem initialGrass_length (g : ℕ → ℚ) (k : ℕ) : (initialGrass g k).1.length = 24 := by
  unfold initialGrass
  rw [spawnGrassRows_len, initialGrassRowZs_eq]
  simp [patchesInRow_neg20, patchesInRow_neg45, patchesInRow_neg70, patchesInRow_neg95,
    patchesInRow_neg120, patchesInRow_neg145, patchesInRow_neg170, patchesInRow_neg195]

/-! ## Claim theorems -/


/-- C2 — `createNewVegetation` draws a candidate per attempt and
rejects candidates failing the acceptance test, retrying up to the fixed
bound of 10 attempts; it returns `none` exactly when all 10 candidates
are rejected (silently — the caller then simply keeps the shrunk list, so
the live population of that kind decreases and a recycle pass never grows
a population). -/
theorem respawn_retry_spec (g : ℕ → ℚ) (isGrass : Bool) (ex : List Pos) (k : ℕ) :
    ((createNewVegetation g isGrass ex k).1 = none ↔
      ∀ a < 10, acceptCandidate g (k + 2 * a) isGrass ex = false) ∧
    ((createNewVegetation g isGrass ex k).1 = none →
      (createNewVegetation g isGrass ex k).2 = k + 2 * 10) ∧
    (∀ j, acceptCandidate g j isGrass ex = false ↔
      (tooCloseTo ex (candidateX g j isGrass) (candidateZ g j) = true ∨
        (isGrass = false ∧ |candidateX g j isGrass| < TREE_CLEARANCE_FROM_CENTER))) ∧
    (∀ (i : ℕ) (ps : List Pos) (j : ℕ), (recycleAux g isGrass i ps j).1.length ≤ ps.length) ∧
    (∀ (ps : List Pos) (i j : ℕ) (hi : i < ps.length), REMOVAL_Z < ps[i].z →
      (createNewVegetation g isGrass (ps.eraseIdx i) j).1 = none →
      recycleAux g isGrass (i + 1) ps j =
        recycleAux g isGrass i (ps.eraseIdx i)
          (createNewVegetation g isGrass (ps.eraseIdx i) j).2 ∧
        (ps.eraseIdx i).length = ps.length - 1) := by
  refine ⟨createNewAttempts_none_iff 10 k, createNewAttempts_none_idx 10 k, ?_, ?_, ?_⟩
  · intro j
    cases hb : tooCloseTo ex (candidateX g j isGrass) (candidateZ g j) <;>
      cases isGrass <;> simp [acceptCandidate, hb, not_le]
  · intro i ps j
    exact recycleAux_len_le i ps j
  · intro ps i j hi hz hfail
    refine ⟨?_, List.length_eraseIdx_of_lt hi⟩
    rw [recycleAux, if_pos (by rw [List.getD_eq_getElem ps ⟨0, 0⟩ hi]; exact hz)]
    rcases hcv : createNewVegetation g isGrass (ps.eraseIdx i) j with ⟨o, j2⟩
    rw [hcv] at hfail
    simp only at hfail
    subst hfail
    rfl

/-- C4 (counterexample) — the claim "after `resize(w, h)` every pass's
resolution uniform equals `(w, h)`" fails: starting from setup at
1024×768, a resize to 800×600 leaves the chromatic-aberration pass's
`resolution` uniform at the stale setup value `(1024, 768)`, because it
inherits the base `Pass.setSize` (a no-op) and its `update` is only called
at setup. -/
theorem resize_consistency_counterexample :
    (onWindowResize (setupPipeline 1024 768) 800 600).chromatic.resolution ≠ (800, 600) ∧
      (onWindowResize (setupPipeline 1024 768) 800 600).chromatic.resolution = (1024, 768) := by
  constructor <;> decide

/-- C4 (amended) — after `resize(w, h)` the depth-driven blur pass's
render target and resolution uniform equal `(w, h)`, but the
chromatic-aberration pass's resolution uniform keeps its previous value
(it is only changed by explicit `update` calls). -/
theorem resize_consistency_amended (pl : Pipeline) (w h : ℕ) :
    (onWindowResize pl w h).depthBlur.depthTargetW = w ∧
    (onWindowResize pl w h).depthBlur.depthTargetH = h ∧
    (onWindowResize pl w h).depthBlur.resolution = (w, h) ∧
    (onWindowResize pl w h).chromatic.resolution = pl.chromatic.resolution :=
  ⟨rfl, rfl, rfl, rfl⟩

/-- C6 — `createInitialVegetation` discards the previous live sets, so
running it twice yields exactly the single-run population; the grass
population always has the configured size 24 (1 large patch + 23 row
patches) and the tree population is bounded by the 10×30 attempt grid. -/
theorem repopulation_idempotent (g g2 : ℕ → ℚ) (k k2 : ℕ) (st : VegState) :
    (createInitialVegetation g2 k2 (createInitialVegetation g k st).1).1 =
      (createInitialVegetation g2 k2 st).1 ∧
    (createInitialVegetation g k st).1.grassPatches.length = 24 ∧
    (createInitialVegetation g k st).1.trees.length ≤ 300 := by
  refine ⟨rfl, ?_, ?_⟩
  · rw [createInitialVegetation_grass]
    exact initialGrass_length g k
  · rw [createInitialVegetation_trees]
    refine le_trans (spawnTreeRows_len g _ _ _) ?_
    simp

/-- C7 — if, at the moment the recycle phase examines the lists (after
the advance phase moved every instance by `deltaZ`), no instance has
crossed `REMOVAL_Z`, then `updateVegetation` returns exactly the moved
lists: same count, same identities, same order. -/
theorem recycle_conservation (g : ℕ → ℚ) (k : ℕ) (st : VegState) (d : ℚ)
    (hgrass : ∀ p ∈ st.grassPatches, p.z + d ≤ REMOVAL_Z)
    (htrees : ∀ p ∈ st.trees, p.z + d ≤ REMOVAL_Z) :
    (updateVegetation g k st d).1 =
      ⟨st.grassPatches.map (movePos d), st.trees.map (movePos d)⟩ := by
  have hg' : ∀ p ∈ st.grassPatches.map (movePos d), p.z ≤ REMOVAL_Z := by
    intro p hp
    obtain ⟨q, hq, rfl⟩ := List.mem_map.1 hp
    exact hgrass q hq
  have ht' : ∀ p ∈ st.trees.map (movePos d), p.z ≤ REMOVAL_Z := by
    intro p hp
    obtain ⟨q, hq, rfl⟩ := List.mem_map.1 hp
    exact htrees q hq
  have e1 : (updateVegetation g k st d).1.grassPatches = st.grassPatches.map (movePos d) := by
    rw [updateVegetation_grass, recycleAux_no_cross _ _ _ hg']
  have e2 : (updateVegetation g k st d).1.trees = st.trees.map (movePos d) := by
    rw [updateVegetation_trees, recycleAux_no_cross _ _ _ hg', recycleAux_no_cross _ _ _ ht']
  calc (updateVegetation g k st d).1
      = ⟨(updateVegetation g k st d).1.grassPatches, (updateVegetation g k st d).1.trees⟩ := rfl
    _ = ⟨st.grassPatches.map (movePos d), st.trees.map (movePos d)⟩ := by rw [e1, e2]

/-- C7 (witness) — a concrete state with no instance across the
removal plane is returned exactly as moved. -/
theorem recycle_conservation_witness :
    (updateVegetation (fun _ => 0) 0 ⟨[⟨0, 0⟩], [⟨1, 5⟩]⟩ (1/2)).1 =
      ⟨[(⟨0, 0⟩ : Pos)].map (movePos (1/2)), [(⟨1, 5⟩ : Pos)].map (movePos (1/2))⟩ :=
  recycle_conservation (fun _ => 0) 0 ⟨[⟨0, 0⟩], [⟨1, 5⟩]⟩ (1/2)
    (by intro p hp; rw [List.mem_singleton] at hp; subst hp; norm_num [REMOVAL_Z])
    (by intro p hp; rw [List.mem_singleton] at hp; subst hp; norm_num [REMOVAL_Z])

/-- C9 — objects on excluded layers are hidden only for the depth
pre-pass (they are invisible in the scene state the depth render sees),
and after `render` returns every object's `visible` flag equals its value
before the call. -/
theorem layer_exclusion_spec (ex : List ℕ) (scene : List SceneObj) :
    (dofRenderVisibility ex scene).2 = scene ∧
      ∀ o ∈ (dofRenderVisibility ex scene).1,
        matchesExcluded ex o = true → o.visible = false := by
  unfold dofRenderVisibility
  by_cases he : ex.isEmpty
  · rw [if_pos he]
    refine ⟨rfl, ?_⟩
    intro o _ hm
    rw [List.isEmpty_iff] at he
    subst he
    simp [matchesExcluded] at hm
  · rw [if_neg he]
    exact ⟨restore_hideExcluded ex scene, fun o ho hm => hideExcluded_hidden ex scene 0 o ho hm⟩

/-- C9 (witness) — one object on excluded layer 2 (mask `1 << 2`): it
is hidden in the depth pre-pass state and restored afterwards. -/
theorem layer_exclusion_spec_witness :
    (dofRenderVisibility [2] [⟨4, true⟩]).2 = [⟨4, true⟩] ∧
      ∀ o ∈ (dofRenderVisibility [2] [⟨4, true⟩]).1,
        matchesExcluded [2] o = true → o.visible = false :=
  layer_exclusion_spec [2] [⟨4, true⟩]



/-- C8 — `updateVegetation` factors as recycle-after-advance; any
instance whose moved coordinate stays at or below `REMOVAL_Z` survives,
and every live instance after the call is either a moved instance judged
on its moved coordinate or a fresh spawn in the generation band, so the
crossing decision always uses this frame's moved position. -/
theorem advance_before_recycle (g : ℕ → ℚ) (k : ℕ) (st : VegState) (d : ℚ) (hg : RngWF g) :
    updateVegetation g k st d = recycleVeg g k (advanceVeg d st) ∧
    (∀ p ∈ st.grassPatches, p.z + d ≤ REMOVAL_Z →
      movePos d p ∈ (updateVegetation g k st d).1.grassPatches) ∧
    (∀ p ∈ st.trees, p.z + d ≤ REMOVAL_Z →
      movePos d p ∈ (updateVegetation g k st d).1.trees) ∧
    (∀ r ∈ (updateVegetation g k st d).1.grassPatches,
      (r ∈ st.grassPatches.map (movePos d) ∧ r.z ≤ REMOVAL_Z) ∨
        (GENERATION_Z - 50 < r.z ∧ r.z ≤ GENERATION_Z + 50)) ∧
    (∀ r ∈ (updateVegetation g k st d).1.trees,
      (r ∈ st.trees.map (movePos d) ∧ r.z ≤ REMOVAL_Z) ∨
        (GENERATION_Z - 50 < r.z ∧ r.z ≤ GENERATION_Z + 50)) := by
  refine ⟨rfl, ?_, ?_, ?_, ?_⟩
  · intro p hp hz; exact updateVegetation_keep_grass g k st d p hp hz
  · intro p hp hz; exact updateVegetation_keep_trees g k st d p hp hz
  · intro r hr
    rw [updateVegetation_grass] at hr
    rcases recycleAux_mem _ _ _ r hr with h1 | h2 | h3
    · rw [List.drop_length] at h1; simp at h1
    · exact Or.inl h2
    · obtain ⟨j, hj⟩ := h3
      have hz := candidateZ_mem hg j
      exact Or.inr ⟨by rw [hj]; exact hz.1, by rw [hj]; exact hz.2⟩
  · intro r hr
    rw [updateVegetation_trees] at hr
    rcases recycleAux_mem _ _ _ r hr with h1 | h2 | h3
    · rw [List.drop_length] at h1; simp at h1
    · exact Or.inl h2
    · obtain ⟨j, hj⟩ := h3
      have hz := candidateZ_mem hg j
      exact Or.inr ⟨by rw [hj]; exact hz.1, by rw [hj]; exact hz.2⟩

/-- C8 (witness) — the factorization and the moved-position rules at a
concrete state and frame distance. -/
theorem advance_before_recycle_witness :
    updateVegetation (fun _ => 0) 0 ⟨[⟨0, 0⟩], []⟩ (1/2) =
      recycleVeg (fun _ => 0) 0 (advanceVeg (1/2) ⟨[⟨0, 0⟩], []⟩) ∧
    (∀ p ∈ (⟨[⟨0, 0⟩], []⟩ : VegState).grassPatches, p.z + 1/2 ≤ REMOVAL_Z →
      movePos (1/2) p ∈ (updateVegetation (fun _ => 0) 0 ⟨[⟨0, 0⟩], []⟩ (1/2)).1.grassPatches) ∧
    (∀ p ∈ (⟨[⟨0, 0⟩], []⟩ : VegState).trees, p.z + 1/2 ≤ REMOVAL_Z →
      movePos (1/2) p ∈ (updateVegetation (fun _ => 0) 0 ⟨[⟨0, 0⟩], []⟩ (1/2)).1.trees) ∧
    (∀ r ∈ (updateVegetation (fun _ => 0) 0 ⟨[⟨0, 0⟩], []⟩ (1/2)).1.grassPatches,
      (r ∈ (⟨[⟨0, 0⟩], []⟩ : VegState).grassPatches.map (movePos (1/2)) ∧ r.z ≤ REMOVAL_Z) ∨
        (GENERATION_Z - 50 < r.z ∧ r.z ≤ GENERATION_Z + 50)) ∧
    (∀ r ∈ (updateVegetation (fun _ => 0) 0 ⟨[⟨0, 0⟩], []⟩ (1/2)).1.trees,
      (r ∈ (⟨[⟨0, 0⟩], []⟩ : VegState).trees.map (movePos (1/2)) ∧ r.z ≤ REMOVAL_Z) ∨
        (GENERATION_Z - 50 < r.z ∧ r.z ≤ GENERATION_Z + 50)) :=
  advance_before_recycle (fun _ => 0) 0 ⟨[⟨0, 0⟩], []⟩ (1/2)
    (fun _ => ⟨by norm_num, by norm_num⟩)

/-- C10 — every tree accepted by the respawn path satisfies the
camera-path clearance `|x| ≥ TREE_CLEARANCE_FROM_CENTER`, while the
initial population applies no such check: with all uniform draws equal to
`1/2` it places a tree exactly on the camera path (`x = 0`). -/
theorem tree_clearance_spec (g : ℕ → ℚ) (ex : List Pos) (k : ℕ) (p : Pos)
    (h : (createNewVegetation g false ex k).1 = some p) :
    TREE_CLEARANCE_FROM_CENTER ≤ |p.x| ∧
      ∃ q ∈ (createInitialVegetation (fun _ => 1/2) 0 ⟨[], []⟩).1.trees,
        |q.x| < TREE_CLEARANCE_FROM_CENTER := by
  constructor
  · rcases hcv : createNewVegetation g false ex k with ⟨o, k2⟩
    rw [hcv] at h
    simp only at h
    subst h
    obtain ⟨j, hq, hacc⟩ := createNewAttempts_some hcv
    subst hq
    exact (acceptCandidate_eq_true.1 hacc).2 rfl
  · rw [createInitialVegetation_trees]
    unfold initialTrees
    have hrange : List.range 10 = 0 :: [1, 2, 3, 4, 5, 6, 7, 8, 9] := by decide
    rw [hrange, spawnTreeRows]
    have h30 : spawnTreeAttempts (fun _ => (1 : ℚ)/2) (-100 - 10 * ((0 : ℕ) : ℚ)) 30
        ((initialGrass (fun _ => (1 : ℚ)/2) 0).2) [] =
        spawnTreeAttempts (fun _ => (1 : ℚ)/2) (-100 - 10 * ((0 : ℕ) : ℚ)) 29
          ((initialGrass (fun _ => (1 : ℚ)/2) 0).2 + 1)
          [⟨(2 * (1/2) - 1) * TREE_SPREAD, -100 - 10 * ((0 : ℕ) : ℚ)⟩] := by
      rw [show (30 : ℕ) = 29 + 1 from rfl, spawnTreeAttempts]
      simp [tooCloseTo]
    rw [h30]
    obtain ⟨vs, hvs⟩ := spawnTreeAttempts_acc (fun _ => (1 : ℚ)/2) (-100 - 10 * ((0 : ℕ) : ℚ)) 29
      ((initialGrass (fun _ => (1 : ℚ)/2) 0).2 + 1)
      [⟨(2 * (1/2) - 1) * TREE_SPREAD, -100 - 10 * ((0 : ℕ) : ℚ)⟩]
    obtain ⟨us, hus⟩ := spawnTreeRows_acc (fun _ => (1 : ℚ)/2) [1, 2, 3, 4, 5, 6, 7, 8, 9] _ _
    rw [hus, hvs]
    refine ⟨⟨(2 * (1/2) - 1) * TREE_SPREAD, -100 - 10 * ((0 : ℕ) : ℚ)⟩, by simp, ?_⟩
    norm_num [TREE_SPREAD, TREE_CLEARANCE_FROM_CENTER]



/-- C10 (witness) — a concrete successful tree respawn (all draws
`3/4`, empty live set) lands at `x = 10`, which satisfies the clearance. -/
theorem tree_clearance_spec_witness :
    TREE_CLEARANCE_FROM_CENTER ≤
      |(⟨candidateX (fun _ => 3/4) 0 false, candidateZ (fun _ => 3/4) 0⟩ : Pos).x| ∧
      ∃ q ∈ (createInitialVegetation (fun _ => 1/2) 0 ⟨[], []⟩).1.trees,
        |q.x| < TREE_CLEARANCE_FROM_CENTER :=
  tree_clearance_spec (fun _ => 3/4) [] 0
    ⟨candidateX (fun _ => 3/4) 0 false, candidateZ (fun _ => 3/4) 0⟩
    (by
      have hacc : acceptCandidate (fun _ => 3/4) 0 false [] = true := by
        simp [acceptCandidate, tooCloseTo, candidateX, candidateZ]
        norm_num [TREE_SPREAD, TREE_CLEARANCE_FROM_CENTER]
      rw [createNewVegetation, show (10 : ℕ) = 9 + 1 from rfl, createNewAttempts, if_pos hacc])

/-- C1 (counterexample) — the separation invariant does not hold after
the initial population pass: with all center-biased draws equal to `0`,
the first grass row places five patches at the same point `(0, -20)`, so
two live grass patches coincide (distance 0 < MIN_DISTANCE) while the
population still has its full target size 24 (nothing was skipped or
decreased — initial grass placement performs no separation check at all). -/
theorem initialGrass_separation_counterexample :
    ¬ Separated (createInitialVegetation (fun _ => 0) 0 ⟨[], []⟩).1.grassPatches ∧
      (createInitialVegetation (fun _ => 0) 0 ⟨[], []⟩).1.grassPatches.length = 24 := by
  constructor
  · intro hsep
    rw [createInitialVegetation_grass] at hsep
    have e0 : (initialGrass (fun _ => (0 : ℚ)) 0).1 =
        (spawnGrassRows (fun _ => (0 : ℚ)) [-45, -70, -95, -120, -145, -170, -195]
          (spawnRowPatches (fun _ => (0 : ℚ)) (-20) 5 0 [⟨0, -40⟩]).2
          (spawnRowPatches (fun _ => (0 : ℚ)) (-20) 5 0 [⟨0, -40⟩]).1).1 := by
      unfold initialGrass
      rw [initialGrassRowZs_eq, spawnGrassRows, patchesInRow_neg20]
    have e1 : spawnRowPatches (fun _ => (0 : ℚ)) (-20) 5 0 [⟨0, -40⟩] =
        spawnRowPatches (fun _ => (0 : ℚ)) (-20) 3 2
          ([⟨0, -40⟩] ++ [⟨(fun _ => (0 : ℚ)) 0 * GRASS_SPREAD, -20⟩] ++
            [⟨(fun _ => (0 : ℚ)) 1 * GRASS_SPREAD, -20⟩]) := by
      rw [show (5 : ℕ) = 4 + 1 from rfl, spawnRowPatches, show (4 : ℕ) = 3 + 1 from rfl,
        spawnRowPatches]
    obtain ⟨us, hus, _⟩ := spawnRowPatches_acc (fun _ => (0 : ℚ)) (-20) 3 2
      ([⟨0, -40⟩] ++ [⟨(fun _ => (0 : ℚ)) 0 * GRASS_SPREAD, -20⟩] ++
        [⟨(fun _ => (0 : ℚ)) 1 * GRASS_SPREAD, -20⟩])
    obtain ⟨vs, hvs⟩ := spawnGrassRows_acc (fun _ => (0 : ℚ))
      [-45, -70, -95, -120, -145, -170, -195]
      (spawnRowPatches (fun _ => (0 : ℚ)) (-20) 5 0 [⟨0, -40⟩]).2
      (spawnRowPatches (fun _ => (0 : ℚ)) (-20) 5 0 [⟨0, -40⟩]).1
    rw [e0, hvs, e1, hus] at hsep
    simp only [List.cons_append, List.nil_append, List.append_assoc] at hsep
    have h1 := (List.pairwise_cons.1 hsep).2
    have h2 := (List.pairwise_cons.1 h1).1 ⟨(fun _ => (0 : ℚ)) 1 * GRASS_SPREAD, -20⟩
      (List.mem_cons_self _ _)
    rw [show ((fun _ => (0 : ℚ)) 1 * GRASS_SPREAD) = ((fun _ => (0 : ℚ)) 0 * GRASS_SPREAD)
      from rfl] at h2
    norm_num [sqDist, MIN_DISTANCE] at h2
  · rw [createInitialVegetation_grass]
    exact initialGrass_length _ _

/-- C1 (amended) — the separation invariant holds for the trees of the
initial population (their placement is guarded by the distance test) and
is preserved for both kinds by every advance-plus-recycle cycle (respawns
are accepted only at squared distance ≥ `MIN_DISTANCE²` from every live
same-kind instance); the initial grass placement, however, performs no
such check (see the counterexample). -/
theorem separation_invariant_amended (g : ℕ → ℚ) (k : ℕ) (st : VegState) (d : ℚ)
    (hg : Separated st.grassPatches) (ht : Separated st.trees) :
    Separated (createInitialVegetation g k st).1.trees ∧
      Separated (updateVegetation g k st d).1.grassPatches ∧
      Separated (updateVegetation g k st d).1.trees := by
  refine ⟨?_, ?_, ?_⟩
  · rw [createInitialVegetation_trees]
    unfold initialTrees
    exact spawnTreeRows_sep g _ _ _ List.Pairwise.nil
  · rw [updateVegetation_grass]
    exact recycleAux_sep _ _ _ (separated_map_move d hg)
  · rw [updateVegetation_trees]
    exact recycleAux_sep _ _ _ (separated_map_move d ht)

/-- C1 (witness) — the amended invariant at a concrete separated
state. -/
theorem separation_invariant_amended_witness :
    Separated (createInitialVegetation (fun _ => 0) 0 ⟨[], []⟩).1.trees ∧
      Separated (updateVegetation (fun _ => 0) 0 ⟨[], []⟩ (1/2)).1.grassPatches ∧
      Separated (updateVegetation (fun _ => 0) 0 ⟨[], []⟩ (1/2)).1.trees :=
  separation_invariant_amended (fun _ => 0) 0 ⟨[], []⟩ (1/2)
    List.Pairwise.nil List.Pairwise.nil



/-- C3 (counterexample) — window containment does not hold after every
advance-plus-recycle cycle: the initial population places grass rows down
to `z = -195`, far below `generationZ - spawnJitter = -120`, and the first
update cycle (all draws `0`, default `deltaZ = 1/2`) keeps such a patch at
`z = -194.5`, outside the window. -/
theorem window_containment_counterexample :
    ∃ p ∈ (updateVegetation (fun _ => 0) 0
        (createInitialVegetation (fun _ => 0) 0 ⟨[], []⟩).1 (1/2)).1.grassPatches,
      ¬ InWindow p := by
  obtain ⟨q, hq, hqz⟩ := spawnGrassRows_mem_z (fun _ => (0 : ℚ)) initialGrassRowZs 0
    [⟨0, -40⟩] (-195) (by rw [initialGrassRowZs_eq]; norm_num)
  have hq' : q ∈ (createInitialVegetation (fun _ => 0) 0 ⟨[], []⟩).1.grassPatches := by
    rw [createInitialVegetation_grass]
    exact hq
  refine ⟨movePos (1/2) q, ?_, ?_⟩
  · exact updateVegetation_keep_grass _ _ _ _ _ hq' (by rw [hqz]; norm_num [REMOVAL_Z])
  · intro hw
    have := hw.1
    rw [show (movePos (1/2) q).z = q.z + 1/2 from rfl, hqz] at this
    norm_num [GENERATION_Z] at this

/-- C3 (amended) — window containment is an inductive (steady-state)
invariant: if every live instance starts at or above the lower window edge
`generationZ - spawnJitter` and the frame distance is non-negative, then
after one `updateVegetation` cycle every live instance of either kind lies
in `[GENERATION_Z - 50, REMOVAL_Z] = [-120, 20]` (survivors are judged on
their moved coordinate, respawns land in the generation band); instances
of the initial population that start below the window are the only
exception (see the counterexample). -/
theorem window_containment_amended (g : ℕ → ℚ) (k : ℕ) (st : VegState) (d : ℚ)
    (hg : RngWF g) (hd : 0 ≤ d)
    (hgrass : ∀ p ∈ st.grassPatches, GENERATION_Z - 50 ≤ p.z)
    (htrees : ∀ p ∈ st.trees, GENERATION_Z - 50 ≤ p.z) :
    (∀ p ∈ (updateVegetation g k st d).1.grassPatches, InWindow p) ∧
      (∀ p ∈ (updateVegetation g k st d).1.trees, InWindow p) := by
  constructor
  · intro p hp
    rw [updateVegetation_grass] at hp
    rcases recycleAux_mem _ _ _ p hp with h1 | h2 | h3
    · rw [List.drop_length] at h1; simp at h1
    · obtain ⟨hmem, hle⟩ := h2
      obtain ⟨q, hqmem, rfl⟩ := List.mem_map.1 hmem
      have hlow := hgrass q hqmem
      exact ⟨by rw [show (movePos d q).z = q.z + d from rfl]; linarith, hle⟩
    · obtain ⟨j, hj⟩ := h3
      have hz := candidateZ_mem hg j
      refine ⟨by rw [hj]; linarith [hz.1], ?_⟩
      rw [hj]
      have := hz.2
      norm_num [GENERATION_Z, REMOVAL_Z] at this ⊢
      linarith
  · intro p hp
    rw [updateVegetation_trees] at hp
    rcases recycleAux_mem _ _ _ p hp with h1 | h2 | h3
    · rw [List.drop_length] at h1; simp at h1
    · obtain ⟨hmem, hle⟩ := h2
      obtain ⟨q, hqmem, rfl⟩ := List.mem_map.1 hmem
      have hlow := htrees q hqmem
      exact ⟨by rw [show (movePos d q).z = q.z + d from rfl]; linarith, hle⟩
    · obtain ⟨j, hj⟩ := h3
      have hz := candidateZ_mem hg j
      refine ⟨by rw [hj]; linarith [hz.1], ?_⟩
      rw [hj]
      have := hz.2
      norm_num [GENERATION_Z, REMOVAL_Z] at this ⊢
      linarith

/-- C3 (witness) — the amended containment at a concrete in-window
state and frame distance. -/
theorem window_containment_amended_witness :
    (∀ p ∈ (updateVegetation (fun _ => 0) 0 ⟨[⟨0, -40⟩], [⟨-20, 10⟩]⟩ (1/2)).1.grassPatches,
      InWindow p) ∧
      (∀ p ∈ (updateVegetation (fun _ => 0) 0 ⟨[⟨0, -40⟩], [⟨-20, 10⟩]⟩ (1/2)).1.trees,
        InWindow p) :=
  window_containment_amended (fun _ => 0) 0 ⟨[⟨0, -40⟩], [⟨-20, 10⟩]⟩ (1/2)
    (fun _ => ⟨by norm_num, by norm_num⟩) (by norm_num)
    (by intro p hp; rw [List.mem_singleton] at hp; subst hp; norm_num [GENERATION_Z])
    (by intro p hp; rw [List.mem_singleton] at hp; subst hp; norm_num [GENERATION_Z])

/-- C2 (witness) — the retry specification instantiated at a concrete
draw stream and live set. -/
theorem respawn_retry_spec_witness :
    ((createNewVegetation (fun _ => 0) true [⟨0, -70⟩] 0).1 = none ↔
      ∀ a < 10, acceptCandidate (fun _ => 0) (0 + 2 * a) true [⟨0, -70⟩] = false) ∧
    ((createNewVegetation (fun _ => 0) true [⟨0, -70⟩] 0).1 = none →
      (createNewVegetation (fun _ => 0) true [⟨0, -70⟩] 0).2 = 0 + 2 * 10) ∧
    (∀ j, acceptCandidate (fun _ => 0) j true [⟨0, -70⟩] = false ↔
      (tooCloseTo [⟨0, -70⟩] (candidateX (fun _ => 0) j true)
          (candidateZ (fun _ => 0) j) = true ∨
        (true = false ∧ |candidateX (fun _ => 0) j true| < TREE_CLEARANCE_FROM_CENTER))) ∧
    (∀ (i : ℕ) (ps : List Pos) (j : ℕ),
      (recycleAux (fun _ => 0) true i ps j).1.length ≤ ps.length) ∧
    (∀ (ps : List Pos) (i j : ℕ) (hi : i < ps.length), REMOVAL_Z < ps[i].z →
      (createNewVegetation (fun _ => 0) true (ps.eraseIdx i) j).1 = none →
      recycleAux (fun _ => 0) true (i + 1) ps j =
        recycleAux (fun _ => 0) true i (ps.eraseIdx i)
          (createNewVegetation (fun _ => 0) true (ps.eraseIdx i) j).2 ∧
        (ps.eraseIdx i).length = ps.length - 1) :=
  respawn_retry_spec (fun _ => 0) true [⟨0, -70⟩] 0



/-- C5 (counterexample) — the decoded per-pixel depth is *not* the
normalized linear depth: for camera `near = 0.1`, `far = 1000` and a
fragment at `viewZ = -50` the shader returns
`pow(linearDepth·10, 0.5) = √(4990/9999) ≈ 0.706`, which differs from the
analytic normalized linear depth `499/9999 ≈ 0.0499` by more than `0.5`
(far beyond floating-point tolerance); and at `viewZ = -500` the decoded
value exceeds `1`, so it is not confined to `[0, 1]`. -/
theorem depth_linearization_counterexample :
    (1 : ℝ) / 2 <
      readDepth (1/10) 1000 (viewZToPerspectiveDepth (1/10) 1000 (-50)) -
        (-(-50) - 1/10) / (1000 - 1/10) ∧
      1 < readDepth (1/10) 1000 (viewZToPerspectiveDepth (1/10) 1000 (-500)) := by
  have e1 : readDepthLinear (1/10) 1000 (viewZToPerspectiveDepth (1/10) 1000 (-50)) =
      (-(-50) - 1/10) / (1000 - 1/10) :=
    readDepthLinear_roundtrip (by norm_num) (by norm_num) (by norm_num)
  have e2 : readDepthLinear (1/10) 1000 (viewZToPerspectiveDepth (1/10) 1000 (-500)) =
      (-(-500) - 1/10) / (1000 - 1/10) :=
    readDepthLinear_roundtrip (by norm_num) (by norm_num) (by norm_num)
  constructor
  · rw [readDepth_eq_sqrt, e1]
    have hval : ((-(-50) - 1/10) / (1000 - 1/10) * 10 : ℝ) = 4990/9999 := by norm_num
    rw [hval]
    have h7 : (7 : ℝ)/10 < Real.sqrt (4990/9999) := by
      have : (7 : ℝ)/10 = Real.sqrt ((7/10)^2) := (Real.sqrt_sq (by norm_num)).symm
      rw [this]
      exact Real.sqrt_lt_sqrt (by norm_num) (by norm_num)
    have hlin : ((-(-50) - 1/10) / (1000 - 1/10) : ℝ) < 1/20 := by norm_num
    linarith
  · rw [readDepth_eq_sqrt, e2]
    have hval : ((-(-500) - 1/10) / (1000 - 1/10) * 10 : ℝ) = 49990/9999 := by norm_num
    rw [hval]
    have : (1 : ℝ) = Real.sqrt 1 := Real.sqrt_one.symm
    rw [this]
    exact Real.sqrt_lt_sqrt (by norm_num) (by norm_num)

/-- C5 (amended) — the pass does decode the standard normalized linear
depth (`viewZ` reconstruction from the non-linear depth, then
normalization by the near/far range) — at the scenario camera the
intermediate value matches the analytic one exactly — but it then remaps
it through `pow(linearDepth·10, 0.5)` (the `smoothstep` remap is commented
out), and the per-pixel blur radius is the *remapped* value times
`maxBlurSize`. -/
theorem depth_linearization_amended (near far viewZ mb : ℝ) (h0 : 0 < near)
    (h1 : near < far) (hv : viewZ < 0) :
    readDepthLinear near far (viewZToPerspectiveDepth near far viewZ) =
      (-viewZ - near) / (far - near) ∧
    readDepth near far (viewZToPerspectiveDepth near far viewZ) =
      Real.sqrt ((-viewZ - near) / (far - near) * 10) ∧
    blurSizeOf near far mb (viewZToPerspectiveDepth near far viewZ) =
      readDepth near far (viewZToPerspectiveDepth near far viewZ) * mb := by
  have e := readDepthLinear_roundtrip h0 h1 hv
  refine ⟨e, ?_, rfl⟩
  rw [readDepth_eq_sqrt, e]

/-- C5 (witness) — the amended description at the scenario camera
`near = 0.1`, `far = 1000`, `viewZ = -50`, `maxBlurSize = 3`. -/
theorem depth_linearization_amended_witness :
    readDepthLinear (1/10) 1000 (viewZToPerspectiveDepth (1/10) 1000 (-50)) =
      (-(-50) - 1/10) / (1000 - 1/10) ∧
    readDepth (1/10) 1000 (viewZToPerspectiveDepth (1/10) 1000 (-50)) =
      Real.sqrt ((-(-50) - 1/10) / (1000 - 1/10) * 10) ∧
    blurSizeOf (1/10) 1000 3 (viewZToPerspectiveDepth (1/10) 1000 (-50)) =
      readDepth (1/10) 1000 (viewZToPerspectiveDepth (1/10) 1000 (-50)) * 3 :=
  depth_linearization_amended (1/10) 1000 (-50) 3 (by norm_num) (by norm_num) (by norm_num)

end Avara
